import Mathlib

/-!
MeshroomMaya: the point-in-polygon classifier, the point cloud accessor and the
projection orchestrator of `MVGPointCloud.cpp`.

Shallow embedding of `src/meshroomMaya/core/MVGPointCloud.cpp`.

* A coordinate (`double` in the source) is a rational number. The classifier is
  embedded once, with the rounding of its floating-point operations as a
  parameter: `isLeft` and `wn_PnPoly` take the coordinates as exact numbers,
  `isLeftDouble` and `wn_PnPolyDouble` round every operation to binary64.
* The `(int)` cast of `isLeft` is truncation toward zero into the 32-bit range;
  outside that range (undefined in the source) it is `INT_MIN`, as on x86-64.
* `MPointArray`, `MIntArray` and `std::vector` are lists.
* In the accessor and the orchestrator, reading an array outside its bounds is
  `none`.
-/

set_option autoImplicit false

namespace meshroomMaya

/-! ## Data model -/

/-- A Maya point (`MPoint`, and `MVector` for stored positions): the coordinates
`x`, `y`, `z`. The homogeneous `w` of `MPoint` is never read by the translated code. -/
structure MPoint where
  x : ℚ
  y : ℚ
  z : ℚ
  deriving DecidableEq, Repr, Inhabited

/-! ## Arithmetic of the source -/

/-- Truncation toward zero: the fractional part is discarded. -/
def truncToInt (q : ℚ) : Int :=
  if 0 ≤ q then ⌊q⌋ else ⌈q⌉

/-- The `(int)` conversion of the source: truncation toward zero when the truncated
value lies in the range of a 32-bit `int`. Outside that range the conversion is
undefined in C++; the value taken here is the one the x86-64 conversion
instruction produces, `INT_MIN`. -/
def castToInt (q : ℚ) : Int :=
  if -2147483648 ≤ truncToInt q ∧ truncToInt q ≤ 2147483647 then truncToInt q
  else -2147483648

/-- Rounding to the nearest integer, a tie going to the even one. -/
def roundHalfEven (q : ℚ) : Int :=
  if q - ⌊q⌋ < 1 / 2 then ⌊q⌋
  else if 1 / 2 < q - ⌊q⌋ then ⌊q⌋ + 1
  else if ⌊q⌋ % 2 = 0 then ⌊q⌋ else ⌊q⌋ + 1

/-- Rounding of an exact value to an IEEE binary64 number (`double`), to nearest
with ties to even: 53 significant bits, least exponent -1022 (subnormal numbers
included). Overflow to infinity, for magnitudes from `2^1024` on, is not
modelled. -/
def roundDouble (q : ℚ) : ℚ :=
  if q = 0 then 0
  else
    roundHalfEven (q / 2 ^ (max (Int.log 2 |q|) (-1022) - 52)) *
      2 ^ (max (Int.log 2 |q|) (-1022) - 52)

/-! ## Point-in-polygon classifier (anonymous namespace of the source) -/

/-- Source `isLeft(P0, P1, P2)`:
`(int)((P1.x - P0.x) * (P2.y - P0.y) - (P2.x - P0.x) * (P1.y - P0.y))`.
The parameter `fl` is the rounding applied to the result of each of the five
floating-point operations, one at a time (no fused multiply-add, no extended
precision): `roundDouble` for the `double` arithmetic of the source, `id` for
coordinates taken as exact numbers. -/
def isLeftWith (fl : ℚ → ℚ) (P0 P1 P2 : MPoint) : Int :=
  castToInt (fl (fl (fl (P1.x - P0.x) * fl (P2.y - P0.y)) -
    fl (fl (P2.x - P0.x) * fl (P1.y - P0.y))))

/-- Body of the `for` loop of `wn_PnPoly` for the edge `(V[i], V[i+1])`, as a
function of the running counter `wn`. -/
def wnStepWith (fl : ℚ → ℚ) (P Vi Vi1 : MPoint) (wn : Int) : Int :=
  if Vi.y ≤ P.y then
    if Vi1.y > P.y then
      if isLeftWith fl Vi Vi1 P > 0 then wn + 1 else wn
    else wn
  else
    if Vi1.y ≤ P.y then
      if isLeftWith fl Vi Vi1 P < 0 then wn - 1 else wn
    else wn

/-- The loop `for (i = 0; i < V.length() - 1; i++)` of `wn_PnPoly`, run on the
not yet visited suffix `V[i], V[i+1], ...` with the running counter `wn`. -/
def wnLoopWith (fl : ℚ → ℚ) (P : MPoint) : List MPoint → Int → Int
  | Vi :: Vi1 :: rest, wn => wnLoopWith fl P (Vi1 :: rest) (wnStepWith fl P Vi Vi1 wn)
  | _, wn => wn

/-- Source `wn_PnPoly(P, V)`: `int wn = 0;` then the loop, then `return wn`.
The embedding is faithful for a non-empty `V`; for an empty `V` the unsigned
bound `V.length() - 1` of the source wraps around and the loop reads outside
the array. -/
def wn_PnPolyWith (fl : ℚ → ℚ) (P : MPoint) (V : List MPoint) : Int :=
  wnLoopWith fl P V 0

/-- Source `isLeft` with the coordinates taken as exact numbers: only the `(int)`
conversion loses information. -/
def isLeft (P0 P1 P2 : MPoint) : Int :=
  isLeftWith id P0 P1 P2

/-- Source `wn_PnPoly` with the coordinates taken as exact numbers. -/
def wn_PnPoly (P : MPoint) (V : List MPoint) : Int :=
  wn_PnPolyWith id P V

/-- Source `isLeft` in the `double` arithmetic of the source. -/
def isLeftDouble (P0 P1 P2 : MPoint) : Int :=
  isLeftWith roundDouble P0 P1 P2

/-- Source `wn_PnPoly` in the `double` arithmetic of the source. -/
def wn_PnPolyDouble (P : MPoint) (V : List MPoint) : Int :=
  wn_PnPolyWith roundDouble P V

/-! ## Point cloud accessor -/

/-- Modelled from the spec: the declaration of `MVGPointCloudItem` is in a header
that is not under `src/`. The spec gives `{ id: integer, position: Point3D }`; the
field names `_id` and `_position` are the ones the source reads and writes. -/
structure MVGPointCloudItem where
  _id : Int
  _position : MPoint
  deriving DecidableEq, Repr, Inhabited

/-- Source `MStatus`, reduced to success or failure. -/
inductive MStatus where
  | kSuccess
  | kFailure
  deriving DecidableEq, Repr

/-- The particle system behind `_dagpath`: the status with which
`MFnParticleSystem` is attached to it, and the array its `position` query fills. -/
structure ParticleStore where
  status : MStatus
  positionArray : List MPoint
  deriving Repr

/-- Modelled from the spec: the body of `CHECK_RETURN_STATUS` is in a header that is
not under `src/`. The accessor "fails (empty result + error) if the backing store
is invalid or inaccessible": the enclosing function returns the status at once
when it is not a success. The value is whether that return is taken. -/
def CHECK_RETURN_STATUS (status : MStatus) : Bool :=
  status != MStatus.kSuccess

/-- The loop `for (i = 0; i < positionArray.length(); ++i)` of the all-items
`getItems`, with `remaining` iterations left: `items[i]` receives `_id = i` and
`_position = positionArray[i]`. -/
def getItemsFillLoop (positionArray : List MPoint) :
    Nat → Nat → List MVGPointCloudItem → Option (List MVGPointCloudItem)
  | 0, _, items => some items
  | remaining + 1, i, items =>
    match positionArray[i]? with
    | none => none
    | some p =>
      if i < items.length then
        getItemsFillLoop positionArray remaining (i + 1) (items.set i ⟨(i : Int), p⟩)
      else none

/-- Source `MVGPointCloud::getItems(items)`: `items.clear()`, the status check,
`items.resize(positionArray.length())`, then the fill loop. The result is the
returned status and the final value of `items`. -/
def getItemsAll (store : ParticleStore) (_items : List MVGPointCloudItem) :
    Option (MStatus × List MVGPointCloudItem) :=
  let items : List MVGPointCloudItem := []
  if CHECK_RETURN_STATUS store.status then some (store.status, items)
  else
    let positionArray := store.positionArray
    let items := List.replicate positionArray.length (default : MVGPointCloudItem)
    match getItemsFillLoop positionArray positionArray.length 0 items with
    | none => none
    | some filled => some (store.status, filled)

/-- The loop `for (i = 0; i < indexes.length(); ++i)` of the indexed `getItems`, run
on the not yet visited indexes: a new item with `_id = indexes[i]` and
`_position = positionArray[indexes[i]]` is pushed at the back of `items`. An index
outside the position array is an out-of-bounds read. -/
def getItemsPushLoop (positionArray : List MPoint) :
    List Int → List MVGPointCloudItem → Option (List MVGPointCloudItem)
  | [], items => some items
  | index :: rest, items =>
    if index < 0 then none
    else
      match positionArray[index.toNat]? with
      | none => none
      | some p => getItemsPushLoop positionArray rest (items ++ [⟨index, p⟩])

/-- Source `MVGPointCloud::getItems(items, indexes)`: `items.clear()`, the status
check, then the push loop. -/
def getItems (store : ParticleStore) (_items : List MVGPointCloudItem) (indexes : List Int) :
    Option (MStatus × List MVGPointCloudItem) :=
  let items : List MVGPointCloudItem := []
  if CHECK_RETURN_STATUS store.status then some (store.status, items)
  else
    match getItemsPushLoop store.positionArray indexes items with
    | none => none
    | some pushed => some (store.status, pushed)

/-! ## Projection orchestrator -/

/-- The functions of `MVGGeometryUtil` called by the orchestrator. Their code is not
part of the translated file: they are parameters, pure functions of the viewport
and their inputs. The two projections receive the current value of their output
argument and return the success flag with its new value. -/
structure MVGGeometryUtil (M3dView Model LineModel : Type) where
  cameraToViewSpace : M3dView → List MPoint → List MPoint
  worldToViewSpace : M3dView → MPoint → MPoint
  computePlane : List MPoint → Model
  computePlaneWithLineConstraint : List MPoint → List MPoint → LineModel
  projectPointsOnPlane : M3dView → List MPoint → Model → List MPoint → Bool × List MPoint
  projectPointOnPlane : M3dView → MPoint → LineModel → MPoint → Bool × MPoint

/-- Names of the `MVGGeometryUtil` functions, for the record of calls. -/
inductive GeometryCall where
  | cameraToViewSpace
  | worldToViewSpace
  | computePlane
  | computePlaneWithLineConstraint
  | projectPointsOnPlane
  | projectPointOnPlane
  deriving DecidableEq, Repr

/-- What a projection entry point leaves behind: the returned flag, the final value
of the output argument, and the `MVGGeometryUtil` calls made, in order. -/
structure ProjectionOutcome (Out : Type) where
  ret : Bool
  out : Out
  calls : List GeometryCall

/-- The loop over `visibleItems` shared by both entry points: each item is converted
to view space and tested against the closed polygon; the world position of an item
with a nonzero winding number is appended to `enclosedWSPoints`. The second
component records the calls. -/
def enclosedItemsLoop {M3dView Model LineModel : Type}
    (geo : MVGGeometryUtil M3dView Model LineModel) (view : M3dView)
    (closedVSPolygon : List MPoint) :
    List MVGPointCloudItem → List MPoint × List GeometryCall → List MPoint × List GeometryCall
  | [], state => state
  | it :: rest, (enclosedWSPoints, calls) =>
    let windingNumber := wn_PnPoly (geo.worldToViewSpace view it._position) closedVSPolygon
    if windingNumber ≠ 0 then
      enclosedItemsLoop geo view closedVSPolygon rest
        (enclosedWSPoints ++ [it._position], calls ++ [GeometryCall.worldToViewSpace])
    else
      enclosedItemsLoop geo view closedVSPolygon rest
        (enclosedWSPoints, calls ++ [GeometryCall.worldToViewSpace])

/-- Source `MVGPointCloud::projectPoints`. `isValid` is the value of
`_dagpath.isValid()`, `faceWSPoints` the value of the output array on entry. The
result is `none` when `closedVSPolygon[0]` is read from an empty array. -/
def projectPoints {M3dView Model LineModel : Type}
    (geo : MVGGeometryUtil M3dView Model LineModel) (isValid : Bool) (view : M3dView)
    (visibleItems : List MVGPointCloudItem) (faceCSPoints faceWSPoints : List MPoint) :
    Option (ProjectionOutcome (List MPoint)) :=
  if !isValid then some ⟨false, faceWSPoints, []⟩
  else if faceCSPoints.length < 3 then some ⟨false, faceWSPoints, []⟩
  else if visibleItems.length < 3 then some ⟨false, faceWSPoints, []⟩
  else
    let viewPoints := geo.cameraToViewSpace view faceCSPoints
    match viewPoints.head? with
    | none => none
    | some first =>
      let closedVSPolygon := viewPoints ++ [first]
      let state := enclosedItemsLoop geo view closedVSPolygon visibleItems
        ([], [GeometryCall.cameraToViewSpace])
      let enclosedWSPoints := state.1
      if enclosedWSPoints.length < 3 then some ⟨false, faceWSPoints, state.2⟩
      else
        let model := geo.computePlane enclosedWSPoints
        let projected := geo.projectPointsOnPlane view faceCSPoints model faceWSPoints
        some ⟨projected.1, projected.2,
          state.2 ++ [GeometryCall.computePlane, GeometryCall.projectPointsOnPlane]⟩

/-- Source `MVGPointCloud::projectPointsWithLineConstraint`. `projectedWSMouse` is
the value of the output point on entry. -/
def projectPointsWithLineConstraint {M3dView Model LineModel : Type}
    (geo : MVGGeometryUtil M3dView Model LineModel) (isValid : Bool) (view : M3dView)
    (visibleItems : List MVGPointCloudItem) (faceCSPoints constraintedWSPoints : List MPoint)
    (mouseCSPoint projectedWSMouse : MPoint) : Option (ProjectionOutcome MPoint) :=
  if !isValid then some ⟨false, projectedWSMouse, []⟩
  else if faceCSPoints.length < 3 then some ⟨false, projectedWSMouse, []⟩
  else if visibleItems.length < 3 then some ⟨false, projectedWSMouse, []⟩
  else if constraintedWSPoints.length < 2 then some ⟨false, projectedWSMouse, []⟩
  else
    let viewPoints := geo.cameraToViewSpace view faceCSPoints
    match viewPoints.head? with
    | none => none
    | some first =>
      let closedVSPolygon := viewPoints ++ [first]
      let state := enclosedItemsLoop geo view closedVSPolygon visibleItems
        ([], [GeometryCall.cameraToViewSpace])
      let enclosedWSPoints := state.1
      if enclosedWSPoints.length < 3 then some ⟨false, projectedWSMouse, state.2⟩
      else
        let model := geo.computePlaneWithLineConstraint enclosedWSPoints constraintedWSPoints
        let projected := geo.projectPointOnPlane view mouseCSPoint model projectedWSMouse
        some ⟨projected.1, projected.2,
          state.2 ++ [GeometryCall.computePlaneWithLineConstraint,
            GeometryCall.projectPointOnPlane]⟩

/-- The items the classifier counts as enclosed: those whose view-space image has a
nonzero winding number against the closed polygon. -/
def isEnclosed {M3dView Model LineModel : Type}
    (geo : MVGGeometryUtil M3dView Model LineModel) (view : M3dView)
    (closedVSPolygon : List MPoint) (it : MVGPointCloudItem) : Bool :=
  decide (wn_PnPoly (geo.worldToViewSpace view it._position) closedVSPolygon ≠ 0)

/-- A viewport whose conversions leave the coordinates as they are, with a plane
fitter that keeps its input points and a projection that returns the points
given; used to run the orchestrator on concrete data. -/
def identityGeometry : MVGGeometryUtil Unit (List MPoint) (List MPoint × List MPoint) where
  cameraToViewSpace := fun _ ps => ps
  worldToViewSpace := fun _ p => p
  computePlane := fun ps => ps
  computePlaneWithLineConstraint := fun ps line => (ps, line)
  projectPointsOnPlane := fun _ ps _ _ => (true, ps)
  projectPointOnPlane := fun _ p _ _ => (true, p)

/-- Item with the given identifier at the point `(x, y, 0)`. -/
def itemAt (id : Int) (x y : ℚ) : MVGPointCloudItem :=
  ⟨id, ⟨x, y, 0⟩⟩

/-- Outline of the square with corners `(0,0)` and `(10,10)` (not closed). -/
def squareOutline : List MPoint :=
  [⟨0, 0, 0⟩, ⟨10, 0, 0⟩, ⟨10, 10, 0⟩, ⟨0, 10, 0⟩]

/-- The item the accessor builds for an identifier: the identifier itself with the
position stored at that index. -/
def itemOf (positionArray : List MPoint) (id : Int) : MVGPointCloudItem :=
  ⟨id, positionArray.getD id.toNat default⟩

/-- The identifiers `0, 1, ..., n-1`. -/
def allIds (n : Nat) : List Int :=
  (List.range n).map Int.ofNat

/-! ## Reference notions used to state the properties of the classifier -/

/-- Exact signed area of the triangle `(P0, P1, P2)` (twice the area, with sign):
positive when `P2` is strictly left of the line from `P0` to `P1`, zero when on it,
negative when strictly right of it. -/
def signedArea (P0 P1 P2 : MPoint) : ℚ :=
  (P1.x - P0.x) * (P2.y - P0.y) - (P2.x - P0.x) * (P1.y - P0.y)

/-- The edges `(V[i], V[i+1])` of a vertex sequence. -/
def polygonEdges (V : List MPoint) : List (MPoint × MPoint) :=
  V.zip V.tail

/-- Upward crossing counted by the reference test: `V[i].y ≤ P.y < V[i+1].y` and
`P` strictly left of the edge. -/
def upwardLeft (P : MPoint) (e : MPoint × MPoint) : Bool :=
  decide (e.1.y ≤ P.y ∧ P.y < e.2.y ∧ 0 < signedArea e.1 e.2 P)

/-- Downward crossing counted by the reference test: `V[i].y > P.y ≥ V[i+1].y` and
`P` strictly right of the edge. -/
def downwardRight (P : MPoint) (e : MPoint × MPoint) : Bool :=
  decide (e.1.y > P.y ∧ P.y ≥ e.2.y ∧ signedArea e.1 e.2 P < 0)

/-- Reference winding count in the words of the specification: the number of
upward crossings with `P` strictly left, minus the number of downward crossings
with `P` strictly right, the side being decided by the exact sign of the signed
area. -/
def wnReference (P : MPoint) (V : List MPoint) : Int :=
  ((polygonEdges V).countP (upwardLeft P) : Int) - ((polygonEdges V).countP (downwardRight P) : Int)

/-- A vertex sequence is closed when its last point equals its first. -/
def isClosedPolygon (V : List MPoint) : Prop :=
  2 ≤ V.length ∧ V.head? = V.getLast?

instance (V : List MPoint) : Decidable (isClosedPolygon V) := by
  unfold isClosedPolygon; infer_instance

/-- A point is strictly inside a convex polygon given in counter-clockwise order
when it is strictly left of every edge (exact signed area positive). -/
def strictlyInsideConvexCCW (P : MPoint) (V : List MPoint) : Prop :=
  ∀ e ∈ polygonEdges V, 0 < signedArea e.1 e.2 P

instance (P : MPoint) (V : List MPoint) : Decidable (strictlyInsideConvexCCW P V) := by
  unfold strictlyInsideConvexCCW; infer_instance

/-- The point is strictly outside the axis-aligned bounding box of the vertices:
its `x` or its `y` is strictly below the minimum or strictly above the maximum. -/
def strictlyOutsideBoundingBox (P : MPoint) (V : List MPoint) : Prop :=
  (∀ v ∈ V, P.x < v.x) ∨ (∀ v ∈ V, v.x < P.x) ∨ (∀ v ∈ V, P.y < v.y) ∨ (∀ v ∈ V, v.y < P.y)

instance (P : MPoint) (V : List MPoint) : Decidable (strictlyOutsideBoundingBox P V) := by
  unfold strictlyOutsideBoundingBox; infer_instance

/-- The `x` and `y` coordinates of the point (the ones the classifier reads) are
integer-valued. -/
def hasIntCoords (p : MPoint) : Prop :=
  p.x.den = 1 ∧ p.y.den = 1

instance (p : MPoint) : Decidable (hasIntCoords p) := by
  unfold hasIntCoords; infer_instance

/-- The value lies in the range of a 32-bit signed `int`. -/
def fitsInt32 (q : ℚ) : Prop :=
  -2147483648 ≤ q ∧ q ≤ 2147483647

instance (q : ℚ) : Decidable (fitsInt32 q) := by
  unfold fitsInt32; infer_instance

/-- Square with corners `(0,0)` and `(10,10)`, counter-clockwise, closed. -/
def squarePolygon : List MPoint :=
  [⟨0, 0, 0⟩, ⟨10, 0, 0⟩, ⟨10, 10, 0⟩, ⟨0, 10, 0⟩, ⟨0, 0, 0⟩]

/-- Triangle `(0,0)`, `(100,0)`, `(0,1)`, counter-clockwise, closed. -/
def flatTriangle : List MPoint :=
  [⟨0, 0, 0⟩, ⟨100, 0, 0⟩, ⟨0, 1, 0⟩, ⟨0, 0, 0⟩]

/-- Four visible items, three of them inside the square. -/
def threeOfFourInside : List MVGPointCloudItem :=
  [itemAt 0 5 5, itemAt 1 2 3, itemAt 2 7 7, itemAt 3 20 1]

/-- Four visible items, two of them inside the square. -/
def twoOfFourInside : List MVGPointCloudItem :=
  [itemAt 0 5 5, itemAt 1 30 4, itemAt 2 7 7, itemAt 3 20 1]

/-- Three visible items, all of them outside the square. -/
def threeOutside : List MVGPointCloudItem :=
  [itemAt 0 20 1, itemAt 1 30 4, itemAt 2 5 40]

/-- Both products of the signed area of `(P0, P1, P2)` have magnitude at most
`2^53`, the range in which every integer is a `double`. -/
def productsFitDouble (P0 P1 P2 : MPoint) : Prop :=
  |(P1.x - P0.x) * (P2.y - P0.y)| ≤ 9007199254740992 ∧
    |(P2.x - P0.x) * (P1.y - P0.y)| ≤ 9007199254740992

instance (P0 P1 P2 : MPoint) : Decidable (productsFitDouble P0 P1 P2) := by
  unfold productsFitDouble; infer_instance

/-- A single upward edge far from the origin, from `(100000, 0)` to
`(100000, 100000)`. -/
def longEdge : List MPoint :=
  [⟨100000, 0, 0⟩, ⟨100000, 100000, 0⟩]

/-- A single upward edge from the origin to `(2^27 + 2, 2^27 + 3)`. -/
def steepEdge : List MPoint :=
  [⟨0, 0, 0⟩, ⟨134217730, 134217731, 0⟩]

/-- A single upward edge, from `(1,0)` to `(1,1)`. -/
def upwardEdge : List MPoint :=
  [⟨1, 0, 0⟩, ⟨1, 1, 0⟩]

/-! ## Theorems -/

/-! ## Truncation and the conversion to `int` -/

theorem truncToInt_pos_iff (q : ℚ) : 0 < truncToInt q ↔ 1 ≤ q := by
  unfold truncToInt
  split_ifs with h
  · rw [Int.lt_iff_add_one_le, zero_add, Int.le_floor]; norm_num
  · push_neg at h
    constructor
    · intro hc
      have : ⌈q⌉ ≤ 0 := Int.ceil_le.mpr (by exact_mod_cast h.le)
      omega
    · intro hq; linarith

theorem truncToInt_neg_iff (q : ℚ) : truncToInt q < 0 ↔ q ≤ -1 := by
  unfold truncToInt
  split_ifs with h
  · constructor
    · intro hc
      have : 0 ≤ ⌊q⌋ := Int.floor_nonneg.mpr h
      omega
    · intro hq; linarith
  · have h1 : ⌈q⌉ < 0 ↔ ⌈q⌉ ≤ -1 := by omega
    rw [h1, Int.ceil_le]; norm_num

theorem truncToInt_neg (q : ℚ) : truncToInt (-q) = -truncToInt q := by
  unfold truncToInt
  rcases lt_trichotomy q 0 with h | h | h
  · have h1 : 0 ≤ -q := by linarith
    have h2 : ¬ 0 ≤ q := by linarith
    rw [if_pos h1, if_neg h2, Int.floor_neg]
  · subst h; simp
  · have h1 : ¬ 0 ≤ -q := by linarith
    rw [if_neg h1, if_pos h.le, Int.ceil_neg]

theorem truncToInt_intCast (z : ℤ) : truncToInt (z : ℚ) = z := by
  unfold truncToInt
  split_ifs <;> simp

theorem truncToInt_le_iff (q : ℚ) (n : ℤ) (hn : 0 ≤ n) : truncToInt q ≤ n ↔ q < n + 1 := by
  unfold truncToInt
  split_ifs with h
  · rw [← Int.lt_add_one_iff, Int.floor_lt]; push_cast; rfl
  · push_neg at h
    have hc : ⌈q⌉ ≤ 0 := Int.ceil_le.mpr (by exact_mod_cast h.le)
    have hn' : (0 : ℚ) ≤ n := by exact_mod_cast hn
    constructor
    · intro _; linarith
    · intro _; omega

theorem le_truncToInt_iff (q : ℚ) (n : ℤ) (hn : n ≤ 0) : n ≤ truncToInt q ↔ (n : ℚ) - 1 < q := by
  unfold truncToInt
  split_ifs with h
  · have hf : 0 ≤ ⌊q⌋ := Int.floor_nonneg.mpr h
    have hn' : (n : ℚ) ≤ 0 := by exact_mod_cast hn
    constructor
    · intro _; linarith
    · intro _; omega
  · rw [← Int.sub_one_lt_iff, Int.lt_ceil]; push_cast; rfl

theorem castToInt_of_in_range (q : ℚ) (h1 : -2147483649 < q) (h2 : q < 2147483648) :
    castToInt q = truncToInt q := by
  unfold castToInt
  rw [if_pos]
  constructor
  · rw [le_truncToInt_iff q _ (by norm_num)]; push_cast; linarith
  · rw [truncToInt_le_iff q _ (by norm_num)]; push_cast; linarith

theorem castToInt_of_out_of_range (q : ℚ) (h : q ≤ -2147483649 ∨ 2147483648 ≤ q) :
    castToInt q = -2147483648 := by
  unfold castToInt
  rw [if_neg]
  rw [le_truncToInt_iff q _ (by norm_num), truncToInt_le_iff q _ (by norm_num)]
  push_cast
  rcases h with h | h
  · intro hc; linarith [hc.1]
  · intro hc; linarith [hc.2]

theorem castToInt_pos_iff (q : ℚ) : 0 < castToInt q ↔ 1 ≤ q ∧ q < 2147483648 := by
  by_cases h : -2147483649 < q ∧ q < 2147483648
  · rw [castToInt_of_in_range q h.1 h.2, truncToInt_pos_iff]
    exact ⟨fun h1 => ⟨h1, h.2⟩, fun h1 => h1.1⟩
  · have hout : q ≤ -2147483649 ∨ 2147483648 ≤ q := by
      by_contra hc; push_neg at hc; exact h hc
    rw [castToInt_of_out_of_range q hout]
    constructor
    · intro h0; omega
    · intro h1; exfalso; rcases hout with h2 | h2 <;> linarith [h1.1, h1.2]

theorem castToInt_neg_iff (q : ℚ) : castToInt q < 0 ↔ q ≤ -1 ∨ 2147483648 ≤ q := by
  by_cases h : -2147483649 < q ∧ q < 2147483648
  · rw [castToInt_of_in_range q h.1 h.2, truncToInt_neg_iff]
    constructor
    · intro h1; exact Or.inl h1
    · intro h1; rcases h1 with h1 | h1
      · exact h1
      · linarith [h.2]
  · have hout : q ≤ -2147483649 ∨ 2147483648 ≤ q := by
      by_contra hc; push_neg at hc; exact h hc
    rw [castToInt_of_out_of_range q hout]
    constructor
    · intro _; rcases hout with h2 | h2
      · exact Or.inl (by linarith)
      · exact Or.inr h2
    · intro _; omega

theorem castToInt_neg_eq (q : ℚ) (h : |q| < 2147483648) : castToInt (-q) = -castToInt q := by
  have h1 := abs_lt.mp h
  rw [castToInt_of_in_range q (by linarith [h1.1]) h1.2,
    castToInt_of_in_range (-q) (by linarith [h1.2]) (by linarith [h1.1]), truncToInt_neg]

theorem castToInt_intCast (z : ℤ) (h : fitsInt32 (z : ℚ)) : castToInt (z : ℚ) = z := by
  rw [castToInt_of_in_range _ (by linarith [h.1]) (by linarith [h.2]), truncToInt_intCast]

/-! ## Rounding to `double` -/

theorem roundHalfEven_intCast (m : ℤ) : roundHalfEven (m : ℚ) = m := by
  unfold roundHalfEven
  simp

theorem roundDouble_of_scaled_int (q : ℚ) (hq : q ≠ 0) (m : ℤ)
    (h : q / 2 ^ (max (Int.log 2 |q|) (-1022) - 52) = m) : roundDouble q = q := by
  unfold roundDouble
  rw [if_neg hq, h, roundHalfEven_intCast, ← h]
  have hne : (2 : ℚ) ^ (max (Int.log 2 |q|) (-1022) - 52) ≠ 0 := zpow_ne_zero _ (by norm_num)
  field_simp

theorem roundDouble_intCast (z : ℤ) (h : |z| ≤ 2 ^ 53) : roundDouble (z : ℚ) = z := by
  by_cases hz : z = 0
  · subst hz; simp [roundDouble]
  have hq : (z : ℚ) ≠ 0 := by exact_mod_cast hz
  have habs : (0 : ℚ) < |(z : ℚ)| := abs_pos.mpr hq
  have hone : (1 : ℚ) ≤ |(z : ℚ)| := by
    have : (1 : ℤ) ≤ |z| := Int.one_le_abs hz
    exact_mod_cast this
  have hle : |(z : ℚ)| ≤ 2 ^ 53 := by exact_mod_cast h
  have h0 : 0 ≤ Int.log 2 |(z : ℚ)| := by
    rw [← Int.zpow_le_iff_le_log (by norm_num) habs]; simpa using hone
  have h1 : Int.log 2 |(z : ℚ)| < 54 := by
    rw [← Int.lt_zpow_iff_log_lt (by norm_num) habs]
    calc |(z : ℚ)| ≤ 2 ^ 53 := hle
      _ < ((2 : ℕ) : ℚ) ^ (54 : ℤ) := by norm_num
  have hmax : max (Int.log 2 |(z : ℚ)|) (-1022) = Int.log 2 |(z : ℚ)| := max_eq_left (by omega)
  by_cases he : Int.log 2 |(z : ℚ)| ≤ 52
  · obtain ⟨n, hn⟩ : ∃ n : ℕ, Int.log 2 |(z : ℚ)| - 52 = -(n : ℤ) :=
      ⟨(52 - Int.log 2 |(z : ℚ)|).toNat, by omega⟩
    apply roundDouble_of_scaled_int _ hq (z * 2 ^ n)
    rw [hmax, hn, zpow_neg, zpow_natCast]
    push_cast
    field_simp
  · have he53 : Int.log 2 |(z : ℚ)| = 53 := by omega
    have hge : (2 : ℚ) ^ (53 : ℤ) ≤ |(z : ℚ)| := by
      have := Int.zpow_log_le_self (b := 2) (by norm_num) habs
      rw [he53] at this
      simpa using this
    have habsz : |z| = 2 ^ 53 := by
      have : (2 : ℤ) ^ 53 ≤ |z| := by
        have hge2 : (2 : ℚ) ^ (53 : ℕ) ≤ |(z : ℚ)| := by
          rw [← zpow_natCast]; exact hge
        exact_mod_cast hge2
      omega
    have hdvd : ∃ m : ℤ, z = 2 * m := by
      rcases abs_cases z with ⟨h1, _⟩ | ⟨h1, _⟩
      · exact ⟨2 ^ 52, by omega⟩
      · exact ⟨-2 ^ 52, by omega⟩
    obtain ⟨m, hm⟩ := hdvd
    apply roundDouble_of_scaled_int _ hq m
    rw [hmax, he53, hm]
    push_cast
    norm_num

theorem roundDouble_zero : roundDouble 0 = 0 := by
  simp [roundDouble]

theorem roundDouble_mul_intCast (u v : ℤ) (h : |((u : ℚ) * v)| ≤ 9007199254740992) :
    roundDouble (roundDouble (u : ℚ) * roundDouble (v : ℚ)) = (u : ℚ) * v := by
  have hz : |u * v| ≤ 2 ^ 53 := by
    have : ((|u * v| : ℤ) : ℚ) ≤ ((2 ^ 53 : ℤ) : ℚ) := by
      push_cast; exact h
    exact_mod_cast this
  by_cases hu : u = 0
  · subst hu; simp [roundDouble_zero]
  by_cases hv : v = 0
  · subst hv; simp [roundDouble_zero]
  have hu1 : 1 ≤ |u| := Int.one_le_abs hu
  have hv1 : 1 ≤ |v| := Int.one_le_abs hv
  rw [abs_mul] at hz
  have hub : |u| ≤ 2 ^ 53 := by nlinarith [abs_nonneg u, abs_nonneg v]
  have hvb : |v| ≤ 2 ^ 53 := by nlinarith [abs_nonneg u, abs_nonneg v]
  rw [roundDouble_intCast u hub, roundDouble_intCast v hvb]
  have := roundDouble_intCast (u * v) (by rw [abs_mul]; exact hz)
  push_cast at this
  exact this

/-! ## The loop as a sum of edge contributions -/

theorem signedArea_swap (a b P : MPoint) : signedArea b a P = -signedArea a b P := by
  unfold signedArea; ring

theorem isLeft_eq (a b P : MPoint) : isLeft a b P = castToInt (signedArea a b P) := rfl

theorem isLeftWith_id (a b P : MPoint) : isLeftWith id a b P = castToInt (signedArea a b P) :=
  rfl

theorem isLeft_swap (a b P : MPoint) (h : |signedArea a b P| < 2147483648) :
    isLeft b a P = -isLeft a b P := by
  rw [isLeft_eq, isLeft_eq, signedArea_swap, castToInt_neg_eq _ h]

theorem wnStepWith_eq_add (fl : ℚ → ℚ) (P a b : MPoint) (wn : Int) :
    wnStepWith fl P a b wn = wn + wnStepWith fl P a b 0 := by
  unfold wnStepWith
  split_ifs <;> omega

theorem wnLoopWith_eq_add (fl : ℚ → ℚ) (P : MPoint) (V : List MPoint) (wn : Int) :
    wnLoopWith fl P V wn = wn + wnLoopWith fl P V 0 := by
  induction V generalizing wn with
  | nil => simp [wnLoopWith]
  | cons a t ih =>
    cases t with
    | nil => simp [wnLoopWith]
    | cons b rest =>
      simp only [wnLoopWith]
      rw [ih (wnStepWith fl P a b wn), ih (wnStepWith fl P a b 0), wnStepWith_eq_add fl P a b wn]
      omega

theorem wn_PnPolyWith_cons_cons (fl : ℚ → ℚ) (P a b : MPoint) (rest : List MPoint) :
    wn_PnPolyWith fl P (a :: b :: rest) =
      wnStepWith fl P a b 0 + wn_PnPolyWith fl P (b :: rest) := by
  unfold wn_PnPolyWith
  simp only [wnLoopWith]
  rw [wnLoopWith_eq_add]

theorem wn_PnPolyWith_append_singleton (fl : ℚ → ℚ) (P a : MPoint) (L : List MPoint)
    (hL : L ≠ []) :
    wn_PnPolyWith fl P (L ++ [a]) =
      wn_PnPolyWith fl P L + wnStepWith fl P (L.getLast hL) a 0 := by
  induction L with
  | nil => exact absurd rfl hL
  | cons b t ih =>
    cases t with
    | nil => simp [wn_PnPolyWith, wnLoopWith]
    | cons c rest =>
      have h := ih (List.cons_ne_nil c rest)
      simp only [List.cons_append] at h ⊢
      rw [wn_PnPolyWith_cons_cons, wn_PnPolyWith_cons_cons, h]
      simp only [List.getLast_cons (List.cons_ne_nil c rest)]
      omega

theorem polygonEdges_cons_cons (a b : MPoint) (rest : List MPoint) :
    polygonEdges (a :: b :: rest) = (a, b) :: polygonEdges (b :: rest) := by
  simp [polygonEdges]

/-! ## Reversal of the outline -/

theorem wnStep_swap (P a b : MPoint) (h : |signedArea a b P| < 2147483648) :
    wnStepWith id P b a 0 = -wnStepWith id P a b 0 := by
  have hs : isLeftWith id b a P = -isLeftWith id a b P := isLeft_swap a b P h
  unfold wnStepWith
  rw [hs]
  split_ifs <;> first | omega | (exfalso; linarith)

/-- Within the 32-bit range the classifier does not depend on the direction of
traversal: if every edge of `V` has a signed area of magnitude below `2^31`, the
winding number against the reversed sequence is the negated winding number. -/
theorem wn_PnPoly_reverse_of_in_range (P : MPoint) (V : List MPoint)
    (h : ∀ e ∈ polygonEdges V, |signedArea e.1 e.2 P| < 2147483648) :
    wn_PnPoly P V.reverse = -wn_PnPoly P V := by
  unfold wn_PnPoly
  induction V with
  | nil => simp [wn_PnPolyWith, wnLoopWith]
  | cons a t ih =>
    cases t with
    | nil => simp [wn_PnPolyWith, wnLoopWith]
    | cons b rest =>
      rw [polygonEdges_cons_cons] at h
      have hne : (b :: rest).reverse ≠ [] := by simp
      have hhead : |signedArea a b P| < 2147483648 := h (a, b) (by simp)
      rw [List.reverse_cons, wn_PnPolyWith_append_singleton id P a _ hne,
        ih (fun e he => h e (List.mem_cons_of_mem _ he)), wn_PnPolyWith_cons_cons]
      have hl : ((b :: rest).reverse).getLast hne = b := by
        simp [List.getLast_reverse]
      rw [hl, wnStep_swap P a b hhead]
      omega

/-! ## Points above or below every vertex -/

theorem wnStepWith_of_y_outside (fl : ℚ → ℚ) (P a b : MPoint) (wn : Int)
    (h : (P.y < a.y ∧ P.y < b.y) ∨ (a.y < P.y ∧ b.y < P.y)) : wnStepWith fl P a b wn = wn := by
  unfold wnStepWith
  rcases h with ⟨h1, h2⟩ | ⟨h1, h2⟩
  · rw [if_neg (not_le.mpr h1), if_neg (not_le.mpr h2)]
  · rw [if_pos h1.le, if_neg (not_lt.mpr h2.le)]

/-- The part of the bounding-box property that the code does satisfy, in either
arithmetic: a point whose `y` is strictly below, or strictly above, every vertex
gets winding number 0. -/
theorem wn_PnPolyWith_zero_of_y_outside (fl : ℚ → ℚ) (P : MPoint) (V : List MPoint)
    (h : (∀ v ∈ V, P.y < v.y) ∨ (∀ v ∈ V, v.y < P.y)) : wn_PnPolyWith fl P V = 0 := by
  induction V with
  | nil => simp [wn_PnPolyWith, wnLoopWith]
  | cons a t ih =>
    cases t with
    | nil => simp [wn_PnPolyWith, wnLoopWith]
    | cons b rest =>
      have hstep : wnStepWith fl P a b 0 = 0 := by
        apply wnStepWith_of_y_outside
        rcases h with h | h
        · exact Or.inl ⟨h a (by simp), h b (by simp)⟩
        · exact Or.inr ⟨h a (by simp), h b (by simp)⟩
      have htail : wn_PnPolyWith fl P (b :: rest) = 0 := by
        apply ih
        rcases h with h | h
        · exact Or.inl (fun v hv => h v (List.mem_cons_of_mem a hv))
        · exact Or.inr (fun v hv => h v (List.mem_cons_of_mem a hv))
      rw [wn_PnPolyWith_cons_cons, hstep, htail]; rfl

/-! ## Integer-valued coordinates -/

theorem wnReference_cons_cons (P a b : MPoint) (rest : List MPoint) :
    wnReference P (a :: b :: rest) =
      ((if upwardLeft P (a, b) then 1 else 0) - (if downwardRight P (a, b) then 1 else 0))
        + wnReference P (b :: rest) := by
  unfold wnReference polygonEdges
  simp only [List.tail_cons, List.zip_cons_cons, List.countP_cons]
  push_cast
  ring

theorem wnStepWith_eq_reference_of_exact (fl : ℚ → ℚ) (P a b : MPoint)
    (h : (isLeftWith fl a b P : ℚ) = signedArea a b P) :
    wnStepWith fl P a b 0 =
      (if upwardLeft P (a, b) then 1 else 0) - (if downwardRight P (a, b) then 1 else 0) := by
  have hpos : isLeftWith fl a b P > 0 ↔ 0 < signedArea a b P := by
    rw [← h]; exact_mod_cast Iff.rfl
  have hneg : isLeftWith fl a b P < 0 ↔ signedArea a b P < 0 := by
    rw [← h]; exact_mod_cast Iff.rfl
  have h1n : P.y < a.y ↔ ¬ a.y ≤ P.y := not_le.symm
  have h2n : P.y < b.y ↔ ¬ b.y ≤ P.y := not_le.symm
  unfold wnStepWith upwardLeft downwardRight
  by_cases h1 : a.y ≤ P.y <;> by_cases h2 : b.y ≤ P.y <;>
    by_cases h3 : 0 < signedArea a b P <;> by_cases h4 : signedArea a b P < 0 <;>
    simp [h1n, h2n, h1, h2, h3, h4, hpos, hneg]

theorem exists_int_of_den_one (q : ℚ) (h : q.den = 1) : ∃ z : ℤ, q = z :=
  ⟨q.num, (Rat.coe_int_num_of_den_eq_one h).symm⟩

/-- With integer-valued coordinates and both products and the signed area of
magnitude at most `2^53`, the `double` arithmetic of `isLeft` is exact: the value
converted to `int` is the signed area itself. -/
theorem isLeftDouble_eq_castToInt (a b P : MPoint) (ha : hasIntCoords a)
    (hb : hasIntCoords b) (hP : hasIntCoords P) (hprod : productsFitDouble a b P)
    (harea : |signedArea a b P| ≤ 9007199254740992) :
    isLeftDouble a b P = castToInt (signedArea a b P) := by
  obtain ⟨ax, hax⟩ := exists_int_of_den_one _ ha.1
  obtain ⟨ay, hay⟩ := exists_int_of_den_one _ ha.2
  obtain ⟨bx, hbx⟩ := exists_int_of_den_one _ hb.1
  obtain ⟨by', hby⟩ := exists_int_of_den_one _ hb.2
  obtain ⟨px, hpx⟩ := exists_int_of_den_one _ hP.1
  obtain ⟨py, hpy⟩ := exists_int_of_den_one _ hP.2
  unfold productsFitDouble at hprod
  unfold signedArea at harea ⊢
  unfold isLeftDouble isLeftWith
  rw [hax, hay, hbx, hby, hpx, hpy] at hprod harea ⊢
  simp only [← Int.cast_sub] at hprod harea ⊢
  rw [roundDouble_mul_intCast _ _ hprod.1, roundDouble_mul_intCast _ _ hprod.2]
  simp only [← Int.cast_mul, ← Int.cast_sub] at harea ⊢
  rw [roundDouble_intCast]
  have : ((|(bx - ax) * (py - ay) - (px - ax) * (by' - ay)| : ℤ) : ℚ) ≤ ((2 ^ 53 : ℤ) : ℚ) := by
    rw [Int.cast_abs]; push_cast; push_cast at harea; exact harea
  exact_mod_cast this

theorem exists_int_signedArea (a b P : MPoint) (ha : hasIntCoords a) (hb : hasIntCoords b)
    (hP : hasIntCoords P) : ∃ z : ℤ, signedArea a b P = z := by
  obtain ⟨ax, hax⟩ := exists_int_of_den_one _ ha.1
  obtain ⟨ay, hay⟩ := exists_int_of_den_one _ ha.2
  obtain ⟨bx, hbx⟩ := exists_int_of_den_one _ hb.1
  obtain ⟨by', hby⟩ := exists_int_of_den_one _ hb.2
  obtain ⟨px, hpx⟩ := exists_int_of_den_one _ hP.1
  obtain ⟨py, hpy⟩ := exists_int_of_den_one _ hP.2
  refine ⟨(bx - ax) * (py - ay) - (px - ax) * (by' - ay), ?_⟩
  unfold signedArea
  rw [hax, hay, hbx, hby, hpx, hpy]
  push_cast
  rfl

theorem isLeftDouble_exact_of_int (a b P : MPoint) (ha : hasIntCoords a)
    (hb : hasIntCoords b) (hP : hasIntCoords P) (hprod : productsFitDouble a b P)
    (hfit : fitsInt32 (signedArea a b P)) :
    (isLeftDouble a b P : ℚ) = signedArea a b P := by
  have harea : |signedArea a b P| ≤ 9007199254740992 := by
    rw [abs_le]; constructor <;> linarith [hfit.1, hfit.2]
  rw [isLeftDouble_eq_castToInt a b P ha hb hP hprod harea]
  obtain ⟨z, hz⟩ := exists_int_signedArea a b P ha hb hP
  rw [hz] at hfit ⊢
  rw [castToInt_intCast z hfit]

theorem wn_PnPolyDouble_eq_reference_of_int (P : MPoint) (V : List MPoint)
    (hP : hasIntCoords P) (hV : ∀ v ∈ V, hasIntCoords v)
    (hprod : ∀ a ∈ V, ∀ b ∈ V, productsFitDouble a b P)
    (hfit : ∀ a ∈ V, ∀ b ∈ V, fitsInt32 (signedArea a b P)) :
    wn_PnPolyDouble P V = wnReference P V := by
  unfold wn_PnPolyDouble
  induction V with
  | nil => simp [wn_PnPolyWith, wnLoopWith, wnReference, polygonEdges]
  | cons a t ih =>
    cases t with
    | nil => simp [wn_PnPolyWith, wnLoopWith, wnReference, polygonEdges]
    | cons b rest =>
      have ha : a ∈ a :: b :: rest := by simp
      have hb : b ∈ a :: b :: rest := by simp
      have hexact : (isLeftWith roundDouble a b P : ℚ) = signedArea a b P :=
        isLeftDouble_exact_of_int a b P (hV a ha) (hV b hb) hP (hprod a ha b hb)
          (hfit a ha b hb)
      rw [wn_PnPolyWith_cons_cons, wnReference_cons_cons,
        wnStepWith_eq_reference_of_exact roundDouble P a b hexact,
        ih (fun v hv => hV v (List.mem_cons_of_mem a hv))
          (fun u hu v hv => hprod u (List.mem_cons_of_mem a hu) v (List.mem_cons_of_mem a hv))
          (fun u hu v hv => hfit u (List.mem_cons_of_mem a hu) v (List.mem_cons_of_mem a hv))]

/-! ## Rounding at the magnitude of `2^54` -/

theorem log_two_eq_of_bounds (r : ℚ) (e : ℤ) (h1 : (2 : ℚ) ^ e ≤ r) (h2 : r < (2 : ℚ) ^ (e + 1)) :
    Int.log 2 r = e := by
  have hr : 0 < r := lt_of_lt_of_le (zpow_pos (by norm_num) e) h1
  have hle : e ≤ Int.log 2 r := by
    rw [← Int.zpow_le_iff_le_log (by norm_num) hr]; simpa using h1
  have hlt : Int.log 2 r < e + 1 := by
    rw [← Int.lt_zpow_iff_log_lt (by norm_num) hr]; simpa using h2
  omega

theorem roundDouble_square : roundDouble 18014399046352900 = 18014399046352900 := by
  have h := roundDouble_of_scaled_int 18014399046352900 (by norm_num) 4503599761588225
  apply h
  have hlog : Int.log 2 |(18014399046352900 : ℚ)| = 54 :=
    log_two_eq_of_bounds _ 54 (by norm_num) (by norm_num)
  rw [hlog]
  norm_num

theorem roundDouble_square_pred : roundDouble 18014399046352899 = 18014399046352900 := by
  have hlog : Int.log 2 |(18014399046352899 : ℚ)| = 54 :=
    log_two_eq_of_bounds _ 54 (by norm_num) (by norm_num)
  have hfloor : ⌊(18014399046352899 : ℚ) / 4⌋ = 4503599761588224 := by
    rw [Int.floor_eq_iff]; constructor <;> norm_num
  have hq : (18014399046352899 : ℚ) / 2 ^ (max (54 : ℤ) (-1022) - 52) = 18014399046352899 / 4 := by
    norm_num
  have hp : (2 : ℚ) ^ (max (54 : ℤ) (-1022) - 52) = 4 := by norm_num
  unfold roundDouble
  rw [if_neg (by norm_num), hlog, hq, hp]
  unfold roundHalfEven
  rw [hfloor]
  norm_num

theorem castToInt_zero : castToInt 0 = 0 := by
  simp [castToInt, truncToInt]

theorem roundDouble_ofNat_small (n : ℕ) (h : n ≤ 9007199254740992) :
    roundDouble (n : ℚ) = n := by
  have := roundDouble_intCast (n : ℤ) (by rw [abs_of_nonneg (by positivity)]; exact_mod_cast h)
  exact_mod_cast this

/-! ## Claims about the classifier -/

/-- Claim C9 fails on the code: for the single upward edge from `(100000, 0)` to
`(100000, 100000)` and the point `(50000, 50000)`, strictly left of it, the signed
area 5000000000 is outside the range of `int`; `isLeft` returns `INT_MIN`, the
winding number is 0 against the edge and -1 against the reversed edge, in exact
and in `double` arithmetic alike. -/
theorem wn_PnPoly_reverse_breaks_on_int_overflow :
    longEdge ≠ [] ∧
      signedArea ⟨100000, 0, 0⟩ ⟨100000, 100000, 0⟩ ⟨50000, 50000, 0⟩ = 5000000000 ∧
      isLeft ⟨100000, 0, 0⟩ ⟨100000, 100000, 0⟩ ⟨50000, 50000, 0⟩ = -2147483648 ∧
      wn_PnPoly ⟨50000, 50000, 0⟩ longEdge = 0 ∧
      wn_PnPoly ⟨50000, 50000, 0⟩ longEdge.reverse = -1 ∧
      wn_PnPolyDouble ⟨50000, 50000, 0⟩ longEdge = 0 ∧
      wn_PnPolyDouble ⟨50000, 50000, 0⟩ longEdge.reverse = -1 := by
  have harea : signedArea ⟨100000, 0, 0⟩ ⟨100000, 100000, 0⟩ ⟨50000, 50000, 0⟩ = 5000000000 := by
    norm_num [signedArea]
  have hrev : signedArea ⟨100000, 100000, 0⟩ ⟨100000, 0, 0⟩ ⟨50000, 50000, 0⟩ = -5000000000 := by
    norm_num [signedArea]
  have hd1 : isLeftWith roundDouble ⟨100000, 0, 0⟩ ⟨100000, 100000, 0⟩ ⟨50000, 50000, 0⟩ =
      castToInt (signedArea ⟨100000, 0, 0⟩ ⟨100000, 100000, 0⟩ ⟨50000, 50000, 0⟩) :=
    isLeftDouble_eq_castToInt _ _ _ (by simp [hasIntCoords]) (by simp [hasIntCoords])
      (by simp [hasIntCoords]) (by norm_num [productsFitDouble]) (by rw [harea]; norm_num)
  have hd2 : isLeftWith roundDouble ⟨100000, 100000, 0⟩ ⟨100000, 0, 0⟩ ⟨50000, 50000, 0⟩ =
      castToInt (signedArea ⟨100000, 100000, 0⟩ ⟨100000, 0, 0⟩ ⟨50000, 50000, 0⟩) :=
    isLeftDouble_eq_castToInt _ _ _ (by simp [hasIntCoords]) (by simp [hasIntCoords])
      (by simp [hasIntCoords]) (by norm_num [productsFitDouble]) (by rw [hrev]; norm_num)
  refine ⟨by simp [longEdge], harea, ?_, ?_, ?_, ?_, ?_⟩
  · rw [isLeft_eq, harea]
    exact castToInt_of_out_of_range _ (Or.inr (by norm_num))
  · simp [wn_PnPoly, wn_PnPolyWith, wnLoopWith, wnStepWith, longEdge, isLeftWith_id, harea,
      castToInt_pos_iff, castToInt_neg_iff]
    norm_num [castToInt_pos_iff, castToInt_neg_iff]
  · simp [wn_PnPoly, wn_PnPolyWith, wnLoopWith, wnStepWith, longEdge, isLeftWith_id, hrev,
      castToInt_pos_iff, castToInt_neg_iff]
    norm_num [castToInt_pos_iff, castToInt_neg_iff]
  · simp [wn_PnPolyDouble, wn_PnPolyWith, wnLoopWith, wnStepWith, longEdge, hd1, harea,
      castToInt_pos_iff, castToInt_neg_iff]
    norm_num [castToInt_pos_iff, castToInt_neg_iff]
  · simp [wn_PnPolyDouble, wn_PnPolyWith, wnLoopWith, wnStepWith, longEdge, hd2, hrev,
      castToInt_pos_iff, castToInt_neg_iff]
    norm_num [castToInt_pos_iff, castToInt_neg_iff]

/-- Claim C1 fails on the code: the point `(9.95, 5)` is strictly inside the closed
square with corners `(0,0)` and `(10,10)` (strictly left of each of its edges, exact
winding count 1), yet `wn_PnPoly` returns 0: the signed area 0.5 against the right
edge is truncated to 0. -/
theorem wn_PnPoly_zero_strictly_inside_square :
    isClosedPolygon squarePolygon ∧
      strictlyInsideConvexCCW ⟨199 / 20, 5, 0⟩ squarePolygon ∧
      wnReference ⟨199 / 20, 5, 0⟩ squarePolygon = 1 ∧
      wn_PnPoly ⟨199 / 20, 5, 0⟩ squarePolygon = 0 := by
  refine ⟨by decide, ?_, ?_, ?_⟩
  · simp [strictlyInsideConvexCCW, polygonEdges, squarePolygon, signedArea]
    norm_num
  · simp [wnReference, polygonEdges, squarePolygon, upwardLeft, downwardRight, signedArea,
      List.countP_cons]
    norm_num
  · simp [wn_PnPoly, wn_PnPolyWith, wnLoopWith, wnStepWith, squarePolygon, isLeftWith_id,
      signedArea, castToInt_pos_iff, castToInt_neg_iff]
    norm_num

/-- Claim C2 fails on the code: the point `(-0.01, 0.5)` is strictly outside the
bounding box of the closed triangle `(0,0)`, `(100,0)`, `(0,1)` (its `x` is below
every vertex), the exact winding count is 0, yet `wn_PnPoly` returns 1: the signed
area -0.01 against the downward edge is truncated to 0, so only the upward
crossing is counted. -/
theorem wn_PnPoly_nonzero_outside_bounding_box :
    isClosedPolygon flatTriangle ∧
      strictlyOutsideBoundingBox ⟨-1 / 100, 1 / 2, 0⟩ flatTriangle ∧
      wnReference ⟨-1 / 100, 1 / 2, 0⟩ flatTriangle = 0 ∧
      wn_PnPoly ⟨-1 / 100, 1 / 2, 0⟩ flatTriangle = 1 := by
  refine ⟨by decide, ?_, ?_, ?_⟩
  · simp [strictlyOutsideBoundingBox, flatTriangle]
    norm_num
  · simp [wnReference, polygonEdges, flatTriangle, upwardLeft, downwardRight, signedArea,
      List.countP_cons]
    norm_num
  · simp [wn_PnPoly, wn_PnPolyWith, wnLoopWith, wnStepWith, flatTriangle, isLeftWith_id,
      signedArea, castToInt_pos_iff, castToInt_neg_iff]
    norm_num

/-- Claim C8 fails on the code: for the single upward edge from `(1,0)` to `(1,1)`
and the point `(0.5, 0.5)`, strictly left of it (signed area 0.5), `isLeft` returns
0 and `wn_PnPoly` returns 0, while the reference winding count is 1. -/
theorem wn_PnPoly_differs_from_reference :
    2 ≤ upwardEdge.length ∧
      0 < signedArea ⟨1, 0, 0⟩ ⟨1, 1, 0⟩ ⟨1 / 2, 1 / 2, 0⟩ ∧
      isLeft ⟨1, 0, 0⟩ ⟨1, 1, 0⟩ ⟨1 / 2, 1 / 2, 0⟩ = 0 ∧
      wnReference ⟨1 / 2, 1 / 2, 0⟩ upwardEdge = 1 ∧
      wn_PnPoly ⟨1 / 2, 1 / 2, 0⟩ upwardEdge = 0 := by
  refine ⟨by decide, ?_, ?_, ?_, ?_⟩
  · norm_num [signedArea]
  · have hp : ¬ 0 < isLeft ⟨1, 0, 0⟩ ⟨1, 1, 0⟩ ⟨1 / 2, 1 / 2, 0⟩ := by
      rw [isLeft_eq, castToInt_pos_iff]; norm_num [signedArea]
    have hn : ¬ isLeft ⟨1, 0, 0⟩ ⟨1, 1, 0⟩ ⟨1 / 2, 1 / 2, 0⟩ < 0 := by
      rw [isLeft_eq, castToInt_neg_iff]; norm_num [signedArea]
    omega
  · simp [wnReference, polygonEdges, upwardEdge, upwardLeft, downwardRight, signedArea,
      List.countP_cons]
    norm_num
  · simp [wn_PnPoly, wn_PnPolyWith, wnLoopWith, wnStepWith, upwardEdge, isLeftWith_id,
      signedArea, castToInt_pos_iff, castToInt_neg_iff]

/-! ## The enclosure loop -/

theorem enclosedItemsLoop_eq {M3dView Model LineModel : Type}
    (geo : MVGGeometryUtil M3dView Model LineModel) (view : M3dView)
    (closedVSPolygon : List MPoint) (visibleItems : List MVGPointCloudItem)
    (enclosedWSPoints : List MPoint) (calls : List GeometryCall) :
    enclosedItemsLoop geo view closedVSPolygon visibleItems (enclosedWSPoints, calls) =
      (enclosedWSPoints ++
          (visibleItems.filter (isEnclosed geo view closedVSPolygon)).map (fun it => it._position),
        calls ++ List.replicate visibleItems.length GeometryCall.worldToViewSpace) := by
  induction visibleItems generalizing enclosedWSPoints calls with
  | nil => simp [enclosedItemsLoop]
  | cons it rest ih =>
    by_cases h : wn_PnPoly (geo.worldToViewSpace view it._position) closedVSPolygon = 0
    · simp [enclosedItemsLoop, ih, isEnclosed, h, List.replicate_succ]
    · simp [enclosedItemsLoop, ih, isEnclosed, h, List.replicate_succ]

/-- Evaluation of the classifier on the closed square, for the concrete items. -/
theorem isEnclosed_square (id : Int) (x y : ℚ) :
    isEnclosed identityGeometry () squarePolygon (itemAt id x y) =
      decide (wn_PnPoly ⟨x, y, 0⟩ squarePolygon ≠ 0) := rfl

theorem wn_square_5_5 : wn_PnPoly ⟨5, 5, 0⟩ squarePolygon = 1 := by
  simp [wn_PnPoly, wn_PnPolyWith, wnLoopWith, wnStepWith, squarePolygon, isLeftWith_id,
    signedArea, castToInt_pos_iff, castToInt_neg_iff]
  norm_num

theorem wn_square_2_3 : wn_PnPoly ⟨2, 3, 0⟩ squarePolygon = 1 := by
  simp [wn_PnPoly, wn_PnPolyWith, wnLoopWith, wnStepWith, squarePolygon, isLeftWith_id,
    signedArea, castToInt_pos_iff, castToInt_neg_iff]
  norm_num

theorem wn_square_7_7 : wn_PnPoly ⟨7, 7, 0⟩ squarePolygon = 1 := by
  simp [wn_PnPoly, wn_PnPolyWith, wnLoopWith, wnStepWith, squarePolygon, isLeftWith_id,
    signedArea, castToInt_pos_iff, castToInt_neg_iff]
  norm_num

theorem wn_square_20_1 : wn_PnPoly ⟨20, 1, 0⟩ squarePolygon = 0 := by
  simp [wn_PnPoly, wn_PnPolyWith, wnLoopWith, wnStepWith, squarePolygon, isLeftWith_id,
    signedArea, castToInt_pos_iff, castToInt_neg_iff]
  norm_num

theorem wn_square_30_4 : wn_PnPoly ⟨30, 4, 0⟩ squarePolygon = 0 := by
  simp [wn_PnPoly, wn_PnPolyWith, wnLoopWith, wnStepWith, squarePolygon, isLeftWith_id,
    signedArea, castToInt_pos_iff, castToInt_neg_iff]
  norm_num

theorem wn_square_5_40 : wn_PnPoly ⟨5, 40, 0⟩ squarePolygon = 0 := by
  simp [wn_PnPoly, wn_PnPolyWith, wnLoopWith, wnStepWith, squarePolygon, isLeftWith_id,
    signedArea, castToInt_pos_iff, castToInt_neg_iff]
  norm_num

theorem closed_squareOutline :
    (⟨0, 0, 0⟩ : MPoint) :: squareOutline.tail ++ [⟨0, 0, 0⟩] = squarePolygon := rfl

/-! ## Claims about the projection orchestrator -/

/-- Claim C3: for a valid point cloud, an outline of at least 3 camera-space points
and at least 3 visible items of which at least 3 are enclosed, `projectPoints`
returns exactly what `projectPointsOnPlane` returns for the view, the original
camera-space outline and the plane fitted by `computePlane` to the world positions,
in the order of `visibleItems`, of exactly the items whose view-space image has a
nonzero winding number against the view-space outline closed by its first point. -/
theorem projectPoints_fits_plane_to_enclosed {M3dView Model LineModel : Type}
    (geo : MVGGeometryUtil M3dView Model LineModel) (view : M3dView)
    (visibleItems : List MVGPointCloudItem) (outline faceWSPoints : List MPoint)
    (first : MPoint) (more : List MPoint)
    (hview : geo.cameraToViewSpace view outline = first :: more)
    (houtline : 3 ≤ outline.length) (hvisible : 3 ≤ visibleItems.length)
    (henclosed : 3 ≤ (visibleItems.filter
      (isEnclosed geo view (first :: more ++ [first]))).length) :
    projectPoints geo true view visibleItems outline faceWSPoints =
      some ⟨(geo.projectPointsOnPlane view outline
              (geo.computePlane ((visibleItems.filter
                (isEnclosed geo view (first :: more ++ [first]))).map (fun it => it._position)))
              faceWSPoints).1,
            (geo.projectPointsOnPlane view outline
              (geo.computePlane ((visibleItems.filter
                (isEnclosed geo view (first :: more ++ [first]))).map (fun it => it._position)))
              faceWSPoints).2,
            [GeometryCall.cameraToViewSpace] ++
              List.replicate visibleItems.length GeometryCall.worldToViewSpace ++
              [GeometryCall.computePlane, GeometryCall.projectPointsOnPlane]⟩ := by
  have h1 : ¬ outline.length < 3 := by omega
  have h2 : ¬ visibleItems.length < 3 := by omega
  have h3 : ¬ ((visibleItems.filter
      (isEnclosed geo view (first :: more ++ [first]))).map (fun it => it._position)).length < 3 := by
    rw [List.length_map]; omega
  unfold projectPoints
  simp only [Bool.not_true, Bool.false_eq_true, if_false, h1, h2, hview, List.head?_cons,
    enclosedItemsLoop_eq, List.nil_append]
  rw [if_neg h3]

/-- Instance of claim C3: identity viewport, square outline, four visible items of
which three are enclosed. -/
theorem projectPoints_fits_plane_to_enclosed_witness :
    (identityGeometry.cameraToViewSpace () squareOutline = ⟨0, 0, 0⟩ :: squareOutline.tail ∧
      3 ≤ squareOutline.length ∧ 3 ≤ threeOfFourInside.length ∧
      3 ≤ (threeOfFourInside.filter (isEnclosed identityGeometry ()
        (⟨0, 0, 0⟩ :: squareOutline.tail ++ [⟨0, 0, 0⟩]))).length) ∧
    (projectPoints identityGeometry true () threeOfFourInside squareOutline []).map
        (fun r => (r.ret, r.out)) =
      some (true, squareOutline) :=
  have h1 : identityGeometry.cameraToViewSpace () squareOutline =
      ⟨0, 0, 0⟩ :: squareOutline.tail := rfl
  have h2 : 3 ≤ squareOutline.length := by decide
  have h3 : 3 ≤ threeOfFourInside.length := by decide
  have h4 : 3 ≤ (threeOfFourInside.filter (isEnclosed identityGeometry ()
      (⟨0, 0, 0⟩ :: squareOutline.tail ++ [⟨0, 0, 0⟩]))).length := by
    rw [closed_squareOutline]
    simp [threeOfFourInside, List.filter_cons, isEnclosed_square, wn_square_5_5, wn_square_2_3,
      wn_square_7_7, wn_square_20_1]
  ⟨⟨h1, h2, h3, h4⟩, by
    rw [projectPoints_fits_plane_to_enclosed identityGeometry () threeOfFourInside squareOutline
      [] ⟨0, 0, 0⟩ squareOutline.tail h1 h2 h3 h4]
    rfl⟩

/-- Claim C4: with an outline of at least 3 points and at least 3 visible items, if
fewer than 3 visible items have a nonzero winding number against the closed
view-space outline, `projectPoints` returns false, leaves the output array as it
was, and calls neither the plane fitter nor the plane projection. -/
theorem projectPoints_fails_on_insufficient_enclosure {M3dView Model LineModel : Type}
    (geo : MVGGeometryUtil M3dView Model LineModel) (isValid : Bool) (view : M3dView)
    (visibleItems : List MVGPointCloudItem) (outline faceWSPoints : List MPoint)
    (first : MPoint) (more : List MPoint)
    (hview : geo.cameraToViewSpace view outline = first :: more)
    (houtline : 3 ≤ outline.length) (hvisible : 3 ≤ visibleItems.length)
    (hfew : (visibleItems.filter
      (isEnclosed geo view (first :: more ++ [first]))).length < 3) :
    ∃ calls, projectPoints geo isValid view visibleItems outline faceWSPoints =
        some ⟨false, faceWSPoints, calls⟩ ∧
      GeometryCall.computePlane ∉ calls ∧ GeometryCall.projectPointsOnPlane ∉ calls := by
  cases isValid with
  | false => exact ⟨[], by simp [projectPoints], by simp, by simp⟩
  | true =>
    have h1 : ¬ outline.length < 3 := by omega
    have h2 : ¬ visibleItems.length < 3 := by omega
    have h3 : ((visibleItems.filter
        (isEnclosed geo view (first :: more ++ [first]))).map (fun it => it._position)).length < 3 := by
      rw [List.length_map]; exact hfew
    refine ⟨[GeometryCall.cameraToViewSpace] ++
      List.replicate visibleItems.length GeometryCall.worldToViewSpace, ?_, ?_, ?_⟩
    · unfold projectPoints
      simp only [Bool.not_true, Bool.false_eq_true, if_false, h1, h2, hview, List.head?_cons,
        enclosedItemsLoop_eq, List.nil_append]
      rw [if_pos h3]
    · simp [List.mem_replicate]
    · simp [List.mem_replicate]

/-- Instances of claim C4 with the identity viewport and the square outline: three
visible items all outside the outline, and four visible items of which only two are
enclosed. -/
theorem projectPoints_fails_on_insufficient_enclosure_witness :
    ((threeOutside.filter (isEnclosed identityGeometry ()
        (⟨0, 0, 0⟩ :: squareOutline.tail ++ [⟨0, 0, 0⟩]))).length = 0 ∧
      ∃ calls, projectPoints identityGeometry true () threeOutside squareOutline [] =
          some ⟨false, [], calls⟩ ∧
        GeometryCall.computePlane ∉ calls ∧ GeometryCall.projectPointsOnPlane ∉ calls) ∧
    ((twoOfFourInside.filter (isEnclosed identityGeometry ()
        (⟨0, 0, 0⟩ :: squareOutline.tail ++ [⟨0, 0, 0⟩]))).length = 2 ∧
      ∃ calls, projectPoints identityGeometry true () twoOfFourInside squareOutline [] =
          some ⟨false, [], calls⟩ ∧
        GeometryCall.computePlane ∉ calls ∧ GeometryCall.projectPointsOnPlane ∉ calls) :=
  have h0 : (threeOutside.filter (isEnclosed identityGeometry ()
      (⟨0, 0, 0⟩ :: squareOutline.tail ++ [⟨0, 0, 0⟩]))).length = 0 := by
    rw [closed_squareOutline]
    simp [threeOutside, List.filter_cons, isEnclosed_square, wn_square_20_1, wn_square_30_4,
      wn_square_5_40]
  have h2 : (twoOfFourInside.filter (isEnclosed identityGeometry ()
      (⟨0, 0, 0⟩ :: squareOutline.tail ++ [⟨0, 0, 0⟩]))).length = 2 := by
    rw [closed_squareOutline]
    simp [twoOfFourInside, List.filter_cons, isEnclosed_square, wn_square_5_5, wn_square_30_4,
      wn_square_7_7, wn_square_20_1]
  ⟨⟨h0, projectPoints_fails_on_insufficient_enclosure identityGeometry true () threeOutside
      squareOutline [] ⟨0, 0, 0⟩ squareOutline.tail rfl (by decide) (by decide) (by omega)⟩,
    ⟨h2, projectPoints_fails_on_insufficient_enclosure identityGeometry true () twoOfFourInside
      squareOutline [] ⟨0, 0, 0⟩ squareOutline.tail rfl (by decide) (by decide) (by omega)⟩⟩

/-- Claim C5: if the outline has fewer than 3 points or fewer than 3 items are
visible, `projectPoints` returns false whatever the other inputs, without any
call to the viewport conversions, the classifier loop or the plane fitter, and
leaves the output array as it was. -/
theorem projectPoints_fails_on_short_input {M3dView Model LineModel : Type}
    (geo : MVGGeometryUtil M3dView Model LineModel) (isValid : Bool) (view : M3dView)
    (visibleItems : List MVGPointCloudItem) (outline faceWSPoints : List MPoint)
    (hshort : outline.length < 3 ∨ visibleItems.length < 3) :
    projectPoints geo isValid view visibleItems outline faceWSPoints =
      some ⟨false, faceWSPoints, []⟩ := by
  unfold projectPoints
  rcases hshort with h | h
  · by_cases hv : isValid = true <;> simp [hv, h]
  · by_cases hv : isValid = true <;> by_cases ho : outline.length < 3 <;> simp [hv, h, ho]

/-- Instance of claim C5: an outline of exactly 2 points, with four visible items. -/
theorem projectPoints_fails_on_short_input_witness :
    ((squareOutline.take 2).length < 3 ∨ threeOfFourInside.length < 3) ∧
      projectPoints identityGeometry true () threeOfFourInside (squareOutline.take 2)
          squareOutline =
        some ⟨false, squareOutline, []⟩ :=
  ⟨Or.inl (by decide),
    projectPoints_fails_on_short_input identityGeometry true () threeOfFourInside
      (squareOutline.take 2) squareOutline (Or.inl (by decide))⟩

/-- Claim C6: if the constraint line has fewer than 2 points,
`projectPointsWithLineConstraint` returns false whatever the other inputs, without
any call to the viewport conversions, the classifier loop or the constrained plane
fitter, and leaves the output mouse point as it was. -/
theorem projectPointsWithLineConstraint_fails_on_short_line {M3dView Model LineModel : Type}
    (geo : MVGGeometryUtil M3dView Model LineModel) (isValid : Bool) (view : M3dView)
    (visibleItems : List MVGPointCloudItem) (outline constraintLine : List MPoint)
    (mouseCSPoint projectedWSMouse : MPoint) (hline : constraintLine.length < 2) :
    projectPointsWithLineConstraint geo isValid view visibleItems outline constraintLine
        mouseCSPoint projectedWSMouse =
      some ⟨false, projectedWSMouse, []⟩ := by
  unfold projectPointsWithLineConstraint
  by_cases hv : isValid = true <;> by_cases ho : outline.length < 3 <;>
    by_cases hi : visibleItems.length < 3 <;> simp [hv, ho, hi, hline]

/-- Instance of claim C6: a constraint line of exactly 1 point, everything else being
sufficient for a projection. -/
theorem projectPointsWithLineConstraint_fails_on_short_line_witness :
    (squareOutline.take 1).length < 2 ∧
      projectPointsWithLineConstraint identityGeometry true () threeOfFourInside squareOutline
          (squareOutline.take 1) ⟨5, 5, 0⟩ ⟨1, 2, 3⟩ =
        some ⟨false, ⟨1, 2, 3⟩, []⟩ :=
  ⟨by decide,
    projectPointsWithLineConstraint_fails_on_short_line identityGeometry true ()
      threeOfFourInside squareOutline (squareOutline.take 1) ⟨5, 5, 0⟩ ⟨1, 2, 3⟩ (by decide)⟩

/-! ## The point cloud accessor -/

theorem itemOf_of_getElem? (positionArray : List MPoint) (id : Int) (p : MPoint)
    (h : positionArray[id.toNat]? = some p) : itemOf positionArray id = ⟨id, p⟩ := by
  simp [itemOf, List.getD_eq_getElem?_getD, h]

theorem getItemsPushLoop_eq (positionArray : List MPoint) (ids : List Int)
    (items : List MVGPointCloudItem)
    (hids : ∀ id ∈ ids, 0 ≤ id ∧ id < positionArray.length) :
    getItemsPushLoop positionArray ids items = some (items ++ ids.map (itemOf positionArray)) := by
  induction ids generalizing items with
  | nil => simp [getItemsPushLoop]
  | cons id rest ih =>
    obtain ⟨h0, h1⟩ := hids id (by simp)
    have hlt : id.toNat < positionArray.length := by omega
    have hget : positionArray[id.toNat]? = some (positionArray[id.toNat]) :=
      List.getElem?_eq_getElem hlt
    have hneg : ¬ id < 0 := by omega
    rw [getItemsPushLoop, if_neg hneg]
    simp only [hget]
    rw [ih _ (fun j hj => hids j (List.mem_cons_of_mem id hj))]
    simp [itemOf_of_getElem? positionArray id _ hget]

theorem take_succ_set (items : List MVGPointCloudItem) (i : Nat) (x : MVGPointCloudItem)
    (h : i < items.length) : (items.set i x).take (i + 1) = items.take i ++ [x] := by
  induction items generalizing i with
  | nil => simp at h
  | cons a t ih =>
    cases i with
    | zero => simp
    | succ j =>
      have hj : j < t.length := by simp at h; exact h
      simp [ih j hj]

theorem getItemsFillLoop_eq (positionArray : List MPoint) (remaining i : Nat)
    (items : List MVGPointCloudItem) (hi : i + remaining = positionArray.length)
    (hlen : items.length = positionArray.length) :
    getItemsFillLoop positionArray remaining i items =
      some (items.take i ++
        (List.range' i remaining).map (fun (j : Nat) => itemOf positionArray (j : Int))) := by
  induction remaining generalizing i items with
  | zero =>
    have : i = items.length := by omega
    simp [getItemsFillLoop, this]
  | succ k ih =>
    have hlt : i < positionArray.length := by omega
    have hget : positionArray[i]? = some (positionArray[i]) := List.getElem?_eq_getElem hlt
    have hit : i < items.length := by omega
    rw [getItemsFillLoop]
    simp only [hget, if_pos hit]
    rw [ih (i + 1) _ (by omega) (by simp [hlen]), take_succ_set items i _ hit]
    have hitem : itemOf positionArray (i : Int) = ⟨(i : Int), positionArray[i]⟩ :=
      itemOf_of_getElem? positionArray (i : Int) _ (by simp)
    simp [List.range'_succ, hitem]

/-- Claim C7: on an accessible store with position array `pos`, for every list of
identifiers all within `[0, pos.length)`, the indexed `getItems` discards the
previous items and yields, in request order and with duplicates kept, one item per
identifier, carrying that identifier and the position stored at it; with the
identifiers `0, 1, ..., n-1` it yields what the all-items `getItems` yields. -/
theorem getItems_follows_request_order (store : ParticleStore)
    (items otherItems : List MVGPointCloudItem) (ids : List Int)
    (hstatus : store.status = MStatus.kSuccess)
    (hids : ∀ id ∈ ids, 0 ≤ id ∧ id < store.positionArray.length) :
    (∃ res, getItems store items ids = some (MStatus.kSuccess, res) ∧
      res.length = ids.length ∧
      ∀ (k : Nat) (id : Int), ids[k]? = some id →
        ∃ p, store.positionArray[id.toNat]? = some p ∧ res[k]? = some ⟨id, p⟩) ∧
    getItems store items (allIds store.positionArray.length) = getItemsAll store otherItems := by
  have hcheck : CHECK_RETURN_STATUS store.status = false := by rw [hstatus]; rfl
  have hsucc : CHECK_RETURN_STATUS MStatus.kSuccess = false := rfl
  constructor
  · refine ⟨ids.map (itemOf store.positionArray), ?_, by simp, ?_⟩
    · unfold getItems
      dsimp only
      rw [getItemsPushLoop_eq store.positionArray ids [] hids]
      simp only [hstatus, hsucc, Bool.false_eq_true, if_false, List.nil_append]
    · intro k id hk
      have hmem : id ∈ ids := List.getElem?_mem hk
      obtain ⟨h0, h1⟩ := hids id hmem
      have hlt : id.toNat < store.positionArray.length := by omega
      have hget : store.positionArray[id.toNat]? = some (store.positionArray[id.toNat]) :=
        List.getElem?_eq_getElem hlt
      refine ⟨store.positionArray[id.toNat], hget, ?_⟩
      rw [List.getElem?_map, hk, Option.map_some', itemOf_of_getElem? _ _ _ hget]
  · have hall : ∀ id ∈ allIds store.positionArray.length,
        0 ≤ id ∧ id < store.positionArray.length := by
      intro id hid
      simp only [allIds, List.mem_map, List.mem_range] at hid
      obtain ⟨j, hj, rfl⟩ := hid
      constructor
      · exact Int.ofNat_nonneg j
      · exact Int.ofNat_lt.mpr hj
    have hfill := getItemsFillLoop_eq store.positionArray store.positionArray.length 0
      (List.replicate store.positionArray.length default) (Nat.zero_add _)
      (List.length_replicate _ _)
    unfold getItems getItemsAll
    dsimp only
    rw [getItemsPushLoop_eq store.positionArray _ [] hall]
    simp only [hfill, hcheck, Bool.false_eq_true, if_false, List.nil_append, List.take_zero]
    simp [allIds, List.range_eq_range']

/-- Instance of claim C7: a store of four positions queried with the identifiers
`3, 1, 1, 0`, the previous contents of `items` being one stale item. -/
theorem getItems_follows_request_order_witness :
    ((⟨MStatus.kSuccess, squareOutline⟩ : ParticleStore).status = MStatus.kSuccess ∧
      ∀ id ∈ ([3, 1, 1, 0] : List Int), 0 ≤ id ∧ id < squareOutline.length) ∧
    ((∃ res, getItems ⟨MStatus.kSuccess, squareOutline⟩ [itemAt 9 9 9] [3, 1, 1, 0] =
          some (MStatus.kSuccess, res) ∧
        res.length = ([3, 1, 1, 0] : List Int).length ∧
        ∀ (k : Nat) (id : Int), ([3, 1, 1, 0] : List Int)[k]? = some id →
          ∃ p, squareOutline[id.toNat]? = some p ∧ res[k]? = some ⟨id, p⟩) ∧
      getItems ⟨MStatus.kSuccess, squareOutline⟩ [itemAt 9 9 9] (allIds squareOutline.length) =
        getItemsAll ⟨MStatus.kSuccess, squareOutline⟩ []) :=
  have h1 : (⟨MStatus.kSuccess, squareOutline⟩ : ParticleStore).status = MStatus.kSuccess := rfl
  have h2 : ∀ id ∈ ([3, 1, 1, 0] : List Int), 0 ≤ id ∧ id < squareOutline.length := by
    simp [squareOutline]
  ⟨⟨h1, h2⟩, getItems_follows_request_order ⟨MStatus.kSuccess, squareOutline⟩ [itemAt 9 9 9] []
    [3, 1, 1, 0] h1 h2⟩

end meshroomMaya
